import Mathlib

/-!
Verification of the Library RDF data-management service (three Python
variants: `testapp.py`, `testapp1.py`, `updatedapp.py`) against its
natural-language specification.

The graph data model is embedded shallowly: an rdflib `Graph` is a set of
triples; we represent it as a duplicate-free list of triples whose order
stands in for the store's iteration order, and `Graph.add` appends a triple
only when it is absent (rdflib set semantics).  Pure Python helper methods
(`subject_objects`, `objects`, `subjects`) become list `filterMap`s over the
graph.  The fixed procedural rule tiers first materialise the pairs they
iterate over and then add derived triples whose predicates differ from the
iterated one, so modelling each rule as "snapshot, then fold of adds" is
faithful to the in-place mutation of the source.
-/

/-- An RDF term as stored in a graph: IRI, literal (lexical form), or blank
node.  Variables occur only in patterns, never in stored triples. -/
inductive Node where
  | uri (s : String)
  | lit (s : String)
  | bnode (s : String)
deriving DecidableEq

/-- Python truthiness of an rdflib term (`if author and genre:` in the
source): a term is falsy exactly when its underlying string is empty. -/
def Node.truthy : Node → Bool
  | .uri s => s ≠ ""
  | .lit s => s ≠ ""
  | .bnode s => s ≠ ""

/-- A stored triple (subject, predicate, object). -/
abbrev Triple := Node × Node × Node

/-- A graph: list standing in for rdflib's triple set; insertion order is
the iteration order. -/
abbrev Graph := List Triple

/-- `graph.add(t)`: set-semantics insertion — a no-op when the triple is
already present. -/
def Graph.add (g : Graph) (t : Triple) : Graph :=
  if t ∈ g then g else g ++ [t]

/-- Fold of `Graph.add` over a list of derived triples, in order. -/
def addAll (g : Graph) (l : List Triple) : Graph :=
  l.foldl Graph.add g

/-- `graph.subject_objects(p)`: the (subject, object) pairs of all triples
with predicate `p`, in graph order. -/
def subjectObjects (p : Node) (g : Graph) : List (Node × Node) :=
  g.filterMap (fun t => if t.2.1 = p then some (t.1, t.2.2) else none)

/-- `graph.objects(s, p)`: objects of all triples with subject `s` and
predicate `p`, in graph order. -/
def objectsOf (g : Graph) (s p : Node) : List Node :=
  g.filterMap (fun t => if t.1 = s ∧ t.2.1 = p then some t.2.2 else none)

/-- `graph.subjects(p, o)`: subjects of all triples with predicate `p` and
object `o`, in graph order. -/
def subjectsOf (g : Graph) (p o : Node) : List Node :=
  g.filterMap (fun t => if t.2.1 = p ∧ t.2.2 = o then some t.1 else none)

/-- The deployment's default namespace base (`EX` in the source). -/
def EXbase : String := "http://users.jyu.fi/~tanibir/"

/-- Resolve a local name against the default namespace. -/
def exN (s : String) : Node := Node.uri (EXbase ++ s)

def hasAuthor : Node := exN "hasAuthor"
def wrote : Node := exN "wrote"
def writtenBy : Node := exN "writtenBy"
def hasGenre : Node := exN "hasGenre"
def relatedTo : Node := exN "relatedTo"
def borrowedBy : Node := exN "borrowedBy"
def hasExpertise : Node := exN "hasExpertise"
def recommendedFor : Node := exN "recommendedFor"
def prefersGenre : Node := exN "prefersGenre"
def FrequentBorrower : Node := exN "FrequentBorrower"
def BookClass : Node := exN "Book"
def LoanClass : Node := exN "Loan"
def UserClass : Node := exN "User"

/-- `rdf:type`. -/
def rdfType : Node := Node.uri "http://www.w3.org/1999/02/22-rdf-syntax-ns#type"

/-! ### The fixed procedural rule tiers

Each derivation step of `apply_basic_library_rules` /
`apply_advanced_library_rules` reads the current graph and folds its derived
triples into it; the steps run in source order, so later steps see earlier
steps' output. -/

/-- Rule 1 of `testapp.py`'s basic tier: for every `(book, hasAuthor,
author)` triple add `(author, wrote, book)` and `(book, writtenBy, author)`,
interleaved per pair as in the source loop. -/
def authorAddsT (g : Graph) : List Triple :=
  (subjectObjects hasAuthor g).flatMap
    (fun ba => [(ba.2, wrote, ba.1), (ba.1, writtenBy, ba.2)])

/-- Rule 1 of `testapp1.py`'s basic tier: only `(author, wrote, book)`. -/
def authorAdds1 (g : Graph) : List Triple :=
  (subjectObjects hasAuthor g).map (fun ba => (ba.2, wrote, ba.1))

/-- Books listed under a given genre, in graph order (the per-genre lists of
the `genre_books` dictionary in the source). -/
def booksOfGenre (pairs : List (Node × Node)) (gen : Node) : List Node :=
  pairs.filterMap (fun bg => if bg.2 = gen then some bg.1 else none)

/-- Genre co-membership derivations computed from the `(book, genre)` pair
list: for every ordered pair of distinct books sharing a genre, a
`relatedTo` triple. -/
def genreRelatedOf (pairs : List (Node × Node)) : List Triple :=
  ((pairs.map Prod.snd).dedup).flatMap (fun gen =>
    (booksOfGenre pairs gen).flatMap (fun b1 =>
      (booksOfGenre pairs gen).filterMap (fun b2 =>
        if b1 ≠ b2 then some (b1, relatedTo, b2) else none)))

/-- Rule 2 of both basic tiers, reading the current graph. -/
def genreRelatedAdds (g : Graph) : List Triple :=
  genreRelatedOf (subjectObjects hasGenre g)

/-- Loans borrowed by member `m`, from the `(loan, member)` pair list (the
`borrower_loans` dictionary entries). -/
def loansOfMember (pairs : List (Node × Node)) (m : Node) : List Node :=
  pairs.filterMap (fun lm => if lm.2 = m then some lm.1 else none)

/-- Frequent-borrower derivations from the `(loan, member)` pair list: a
typing triple for every member with more than one loan. -/
def frequentOf (pairs : List (Node × Node)) : List Triple :=
  ((pairs.map Prod.snd).dedup).filterMap (fun m =>
    if 1 < (loansOfMember pairs m).length
    then some (m, rdfType, FrequentBorrower) else none)

/-- Rule 3 of `testapp.py`'s basic tier, reading the current graph. -/
def frequentAdds (g : Graph) : List Triple :=
  frequentOf (subjectObjects borrowedBy g)

/-- One derivation step of a fixed tier: compute the derived triples from
the current graph and fold them in. -/
def stepRule (F : Graph → List Triple) (g : Graph) : Graph :=
  addAll g (F g)

namespace Testapp

/-- `testapp.py` `apply_basic_library_rules`: author inversion (with
`writtenBy`), genre co-membership, frequent-borrower classification, each
step folding its derivations into the graph before the next step runs. -/
def apply_basic_library_rules (g : Graph) : Graph :=
  stepRule frequentAdds (stepRule genreRelatedAdds (stepRule authorAddsT g))

end Testapp

namespace Testapp1

/-- `testapp1.py` `apply_basic_library_rules`: author inversion (`wrote`
only) and genre co-membership; this variant has no frequent-borrower rule. -/
def apply_basic_library_rules (g : Graph) : Graph :=
  stepRule genreRelatedAdds (stepRule authorAdds1 g)

end Testapp1

/-- Advanced rule 1 (identical in both variants): for every subject typed
`Book`, take its first `hasAuthor` object and first `hasGenre` object; when
both exist and are truthy, derive `(author, hasExpertise, genre)`. -/
def expertiseAdds (g : Graph) : List Triple :=
  (subjectsOf g rdfType BookClass).flatMap (fun book =>
    match (objectsOf g book hasAuthor).head?, (objectsOf g book hasGenre).head? with
    | some a, some gen =>
        if a.truthy && gen.truthy then [(a, hasExpertise, gen)] else []
    | some _, none => []
    | none, _ => [])

/-- `graph.subjects(hasGenre, genre)` where `genre` came from
`next(graph.objects(None, hasGenre), None)`: a `None` genre acts as an
rdflib wildcard, yielding every subject of a `hasGenre` triple. -/
def recommendTargets (g : Graph) : List Node :=
  match ((subjectObjects hasGenre g).map Prod.snd).head? with
  | some gen => subjectsOf g hasGenre gen
  | none => (subjectObjects hasGenre g).map Prod.fst

/-- Advanced rule 2 of `testapp.py`: for every subject typed `Loan` with a
truthy first `borrowedBy` object, recommend to that member every book in the
genre picked by `next(graph.objects(None, hasGenre), None)`. -/
def recommendAdds (g : Graph) : List Triple :=
  (subjectsOf g rdfType LoanClass).flatMap (fun loan =>
    match (objectsOf g loan borrowedBy).head? with
    | some m =>
        if m.truthy
        then (recommendTargets g).map (fun book => (book, recommendedFor, m))
        else []
    | none => [])

/-- Advanced rule 2 of `testapp1.py`: for every subject typed `User` with a
truthy first `prefersGenre` object, recommend every book of that genre. -/
def userRecommendAdds (g : Graph) : List Triple :=
  (subjectsOf g rdfType UserClass).flatMap (fun user =>
    match (objectsOf g user prefersGenre).head? with
    | some gen =>
        if gen.truthy
        then (subjectsOf g hasGenre gen).map (fun book => (book, recommendedFor, user))
        else []
    | none => [])

namespace Testapp

/-- `testapp.py` `apply_advanced_library_rules`: basic rules first, then
author expertise, then loan-based recommendations. -/
def apply_advanced_library_rules (g : Graph) : Graph :=
  stepRule recommendAdds (stepRule expertiseAdds (apply_basic_library_rules g))

end Testapp

namespace Testapp1

/-- `testapp1.py` `apply_advanced_library_rules`: basic rules first, then
author expertise, then preference-based recommendations. -/
def apply_advanced_library_rules (g : Graph) : Graph :=
  stepRule userRecommendAdds (stepRule expertiseAdds (apply_basic_library_rules g))

end Testapp1

/-! ### Set-level lemmas about graph insertion -/

theorem mem_add {g : Graph} {t u : Triple} : t ∈ g.add u ↔ t ∈ g ∨ t = u := by
  unfold Graph.add
  split
  · next hu => exact ⟨Or.inl, fun h => h.elim id (fun e => e ▸ hu)⟩
  · simp [List.mem_append]

theorem mem_addAll {t : Triple} :
    ∀ {l : List Triple} {g : Graph}, t ∈ addAll g l ↔ t ∈ g ∨ t ∈ l := by
  intro l
  induction l with
  | nil => intro g; simp [addAll]
  | cons u l ih =>
      intro g
      rw [show addAll g (u :: l) = addAll (g.add u) l from rfl, ih, mem_add]
      simp only [List.mem_cons]
      tauto

theorem mem_of_mem_addAll {t : Triple} {g : Graph} {l : List Triple}
    (h : t ∈ g) : t ∈ addAll g l :=
  mem_addAll.mpr (Or.inl h)

theorem addAll_eq_of_subset :
    ∀ {l : List Triple} {g : Graph}, (∀ t ∈ l, t ∈ g) → addAll g l = g := by
  intro l
  induction l with
  | nil => intro g _; rfl
  | cons u l ih =>
      intro g h
      have hadd : g.add u = g := by
        unfold Graph.add
        simp [h u (List.mem_cons_self u l)]
      rw [show addAll g (u :: l) = addAll (g.add u) l from rfl, hadd]
      exact ih (fun t ht => h t (List.mem_cons_of_mem _ ht))

theorem filterMap_addAll {β : Type} (f : Triple → Option β) :
    ∀ {l : List Triple} {g : Graph}, (∀ t ∈ l, f t = none) →
      (addAll g l).filterMap f = g.filterMap f := by
  intro l
  induction l with
  | nil => intro g _; rfl
  | cons u l ih =>
      intro g h
      rw [show addAll g (u :: l) = addAll (g.add u) l from rfl,
        ih (fun t ht => h t (List.mem_cons_of_mem _ ht))]
      unfold Graph.add
      split
      · rfl
      · rw [List.filterMap_append]
        simp [h u (List.mem_cons_self u l)]

theorem mem_stepRule {F : Graph → List Triple} {g : Graph} {t : Triple} :
    t ∈ stepRule F g ↔ t ∈ g ∨ t ∈ F g :=
  mem_addAll

theorem stepRule_eq_of_subset {F : Graph → List Triple} {g : Graph}
    (h : ∀ t ∈ F g, t ∈ g) : stepRule F g = g :=
  addAll_eq_of_subset h

/-! ### Extraction lemmas and stability of source relations -/

theorem mem_subjectObjects {p : Node} {g : Graph} {q : Node × Node} :
    q ∈ subjectObjects p g ↔ (q.1, p, q.2) ∈ g := by
  unfold subjectObjects
  rw [List.mem_filterMap]
  constructor
  · rintro ⟨⟨s, p', o⟩, hmem, hf⟩
    split at hf
    · next hp =>
        injection hf with hq
        subst hq
        subst hp
        exact hmem
    · cases hf
  · intro h
    exact ⟨(q.1, p, q.2), h, by simp⟩

theorem subjectObjects_stepRule {p : Node} {F : Graph → List Triple} {g : Graph}
    (h : ∀ t ∈ F g, t.2.1 ≠ p) :
    subjectObjects p (stepRule F g) = subjectObjects p g :=
  filterMap_addAll _ (fun t ht => by simp [h t ht])

theorem objectsOf_stepRule {p : Node} {F : Graph → List Triple} {g : Graph}
    (h : ∀ t ∈ F g, t.2.1 ≠ p) (s : Node) :
    objectsOf (stepRule F g) s p = objectsOf g s p :=
  filterMap_addAll _ (fun t ht => by simp [h t ht])

theorem subjectsOf_stepRule {p o : Node} {F : Graph → List Triple} {g : Graph}
    (h : ∀ t ∈ F g, ¬(t.2.1 = p ∧ t.2.2 = o)) :
    subjectsOf (stepRule F g) p o = subjectsOf g p o :=
  filterMap_addAll _ (fun t ht => by simp [if_neg (h t ht)])

/-! ### Shape of the derived triples of each fixed rule -/

theorem wrote_mem_authorAddsT {g : Graph} {b a : Node}
    (h : (b, hasAuthor, a) ∈ g) : (a, wrote, b) ∈ authorAddsT g := by
  unfold authorAddsT
  rw [List.mem_flatMap]
  exact ⟨(b, a), mem_subjectObjects.mpr h, by simp⟩

theorem writtenBy_mem_authorAddsT {g : Graph} {b a : Node}
    (h : (b, hasAuthor, a) ∈ g) : (b, writtenBy, a) ∈ authorAddsT g := by
  unfold authorAddsT
  rw [List.mem_flatMap]
  exact ⟨(b, a), mem_subjectObjects.mpr h, by simp⟩

theorem wrote_mem_authorAdds1 {g : Graph} {b a : Node}
    (h : (b, hasAuthor, a) ∈ g) : (a, wrote, b) ∈ authorAdds1 g := by
  unfold authorAdds1
  rw [List.mem_map]
  exact ⟨(b, a), mem_subjectObjects.mpr h, rfl⟩

theorem pred_of_mem_authorAddsT {g : Graph} {t : Triple}
    (ht : t ∈ authorAddsT g) : t.2.1 = wrote ∨ t.2.1 = writtenBy := by
  unfold authorAddsT at ht
  simp only [List.mem_flatMap, List.mem_cons, List.not_mem_nil, or_false] at ht
  obtain ⟨ba, _, ht⟩ := ht
  rcases ht with rfl | rfl
  · exact Or.inl rfl
  · exact Or.inr rfl

theorem wrote_of_mem_authorAddsT {g : Graph} {x y : Node}
    (h : (x, wrote, y) ∈ authorAddsT g) : (y, hasAuthor, x) ∈ g := by
  unfold authorAddsT at h
  simp only [List.mem_flatMap, List.mem_cons, List.not_mem_nil, or_false,
    Prod.mk.injEq] at h
  obtain ⟨ba, hba, h⟩ := h
  rcases h with ⟨hx, _, hy⟩ | ⟨_, hpred, _⟩
  · subst hx; subst hy
    exact mem_subjectObjects.mp hba
  · exact absurd hpred (by decide)

theorem pred_of_mem_authorAdds1 {g : Graph} {t : Triple}
    (ht : t ∈ authorAdds1 g) : t.2.1 = wrote := by
  unfold authorAdds1 at ht
  rw [List.mem_map] at ht
  obtain ⟨ba, _, rfl⟩ := ht
  rfl

theorem wrote_of_mem_authorAdds1 {g : Graph} {x y : Node}
    (h : (x, wrote, y) ∈ authorAdds1 g) : (y, hasAuthor, x) ∈ g := by
  unfold authorAdds1 at h
  simp only [List.mem_map, Prod.mk.injEq] at h
  obtain ⟨ba, hba, hx, _, hy⟩ := h
  subst hx; subst hy
  exact mem_subjectObjects.mp hba

theorem pred_of_mem_genreRelatedOf {pairs : List (Node × Node)} {t : Triple}
    (ht : t ∈ genreRelatedOf pairs) : t.2.1 = relatedTo := by
  unfold genreRelatedOf at ht
  simp only [List.mem_flatMap, List.mem_filterMap,
    Option.ite_none_right_eq_some, Option.some.injEq] at ht
  obtain ⟨gen, _, b1, _, b2, _, _, h⟩ := ht
  subst h
  rfl

theorem pred_of_mem_genreRelatedAdds {g : Graph} {t : Triple}
    (ht : t ∈ genreRelatedAdds g) : t.2.1 = relatedTo :=
  pred_of_mem_genreRelatedOf ht

theorem shape_of_mem_frequentOf {pairs : List (Node × Node)} {t : Triple}
    (ht : t ∈ frequentOf pairs) : t.2.1 = rdfType ∧ t.2.2 = FrequentBorrower := by
  unfold frequentOf at ht
  simp only [List.mem_filterMap, Option.ite_none_right_eq_some,
    Option.some.injEq] at ht
  obtain ⟨m, _, _, h⟩ := ht
  subst h
  exact ⟨rfl, rfl⟩

theorem shape_of_mem_frequentAdds {g : Graph} {t : Triple}
    (ht : t ∈ frequentAdds g) : t.2.1 = rdfType ∧ t.2.2 = FrequentBorrower :=
  shape_of_mem_frequentOf ht

theorem pred_of_mem_expertiseAdds {g : Graph} {t : Triple}
    (ht : t ∈ expertiseAdds g) : t.2.1 = hasExpertise := by
  unfold expertiseAdds at ht
  simp only [List.mem_flatMap] at ht
  obtain ⟨book, _, ht⟩ := ht
  split at ht
  · split at ht
    · simp only [List.mem_singleton] at ht
      subst ht
      rfl
    · simp at ht
  · simp at ht
  · simp at ht

theorem pred_of_mem_recommendAdds {g : Graph} {t : Triple}
    (ht : t ∈ recommendAdds g) : t.2.1 = recommendedFor := by
  unfold recommendAdds at ht
  simp only [List.mem_flatMap] at ht
  obtain ⟨loan, _, ht⟩ := ht
  split at ht
  · split at ht
    · rw [List.mem_map] at ht
      obtain ⟨book, _, rfl⟩ := ht
      rfl
    · simp at ht
  · simp at ht

theorem pred_of_mem_userRecommendAdds {g : Graph} {t : Triple}
    (ht : t ∈ userRecommendAdds g) : t.2.1 = recommendedFor := by
  unfold userRecommendAdds at ht
  simp only [List.mem_flatMap] at ht
  obtain ⟨user, _, ht⟩ := ht
  split at ht
  · split at ht
    · rw [List.mem_map] at ht
      obtain ⟨book, _, rfl⟩ := ht
      rfl
    · simp at ht
  · simp at ht

/-! ### Claim C1: author inversion -/

theorem wrote_complete_basicT {g : Graph} {x y : Node}
    (h : (x, wrote, y) ∈ Testapp.apply_basic_library_rules g) :
    (x, wrote, y) ∈ g ∨ (y, hasAuthor, x) ∈ g := by
  unfold Testapp.apply_basic_library_rules at h
  rcases mem_stepRule.mp h with h | h
  · rcases mem_stepRule.mp h with h | h
    · rcases mem_stepRule.mp h with h | h
      · exact Or.inl h
      · exact Or.inr (wrote_of_mem_authorAddsT h)
    · exact absurd (pred_of_mem_genreRelatedAdds h) (show wrote ≠ relatedTo from by decide)
  · exact absurd (shape_of_mem_frequentAdds h).1 (show wrote ≠ rdfType from by decide)

theorem wrote_complete_basic1 {g : Graph} {x y : Node}
    (h : (x, wrote, y) ∈ Testapp1.apply_basic_library_rules g) :
    (x, wrote, y) ∈ g ∨ (y, hasAuthor, x) ∈ g := by
  unfold Testapp1.apply_basic_library_rules at h
  rcases mem_stepRule.mp h with h | h
  · rcases mem_stepRule.mp h with h | h
    · exact Or.inl h
    · exact Or.inr (wrote_of_mem_authorAdds1 h)
  · exact absurd (pred_of_mem_genreRelatedAdds h) (show wrote ≠ relatedTo from by decide)

theorem wrote_complete_advT {g : Graph} {x y : Node}
    (h : (x, wrote, y) ∈ Testapp.apply_advanced_library_rules g) :
    (x, wrote, y) ∈ g ∨ (y, hasAuthor, x) ∈ g := by
  unfold Testapp.apply_advanced_library_rules at h
  rcases mem_stepRule.mp h with h | h
  · rcases mem_stepRule.mp h with h | h
    · exact wrote_complete_basicT h
    · exact absurd (pred_of_mem_expertiseAdds h) (show wrote ≠ hasExpertise from by decide)
  · exact absurd (pred_of_mem_recommendAdds h) (show wrote ≠ recommendedFor from by decide)

theorem wrote_complete_adv1 {g : Graph} {x y : Node}
    (h : (x, wrote, y) ∈ Testapp1.apply_advanced_library_rules g) :
    (x, wrote, y) ∈ g ∨ (y, hasAuthor, x) ∈ g := by
  unfold Testapp1.apply_advanced_library_rules at h
  rcases mem_stepRule.mp h with h | h
  · rcases mem_stepRule.mp h with h | h
    · exact wrote_complete_basic1 h
    · exact absurd (pred_of_mem_expertiseAdds h) (show wrote ≠ hasExpertise from by decide)
  · exact absurd (pred_of_mem_userRecommendAdds h) (show wrote ≠ recommendedFor from by decide)

/-- C1: for every triple `(book, hasAuthor, author)` of the input graph, the
Basic and Advanced fixed tiers of both variants derive `(author, wrote,
book)` (present exactly once, by graph set semantics), and the tiers
introduce no `wrote`-predicate triples other than these inversions: any
`wrote` triple of the output was already in the input or corresponds to a
`hasAuthor` triple of the input. -/
theorem C1_author_inversion (g : Graph) :
    (∀ b a, (b, hasAuthor, a) ∈ g →
      (a, wrote, b) ∈ Testapp.apply_basic_library_rules g ∧
      (a, wrote, b) ∈ Testapp.apply_advanced_library_rules g ∧
      (a, wrote, b) ∈ Testapp1.apply_basic_library_rules g ∧
      (a, wrote, b) ∈ Testapp1.apply_advanced_library_rules g) ∧
    (∀ x y, ((x, wrote, y) ∈ Testapp.apply_basic_library_rules g ∨
             (x, wrote, y) ∈ Testapp.apply_advanced_library_rules g ∨
             (x, wrote, y) ∈ Testapp1.apply_basic_library_rules g ∨
             (x, wrote, y) ∈ Testapp1.apply_advanced_library_rules g) →
      (x, wrote, y) ∈ g ∨ (y, hasAuthor, x) ∈ g) := by
  constructor
  · intro b a h
    have hbT : (a, wrote, b) ∈ Testapp.apply_basic_library_rules g := by
      unfold Testapp.apply_basic_library_rules
      exact mem_of_mem_addAll (mem_of_mem_addAll
        (mem_addAll.mpr (Or.inr (wrote_mem_authorAddsT h))))
    have hb1 : (a, wrote, b) ∈ Testapp1.apply_basic_library_rules g := by
      unfold Testapp1.apply_basic_library_rules
      exact mem_of_mem_addAll (mem_addAll.mpr (Or.inr (wrote_mem_authorAdds1 h)))
    refine ⟨hbT, ?_, hb1, ?_⟩
    · unfold Testapp.apply_advanced_library_rules
      exact mem_of_mem_addAll (mem_of_mem_addAll hbT)
    · unfold Testapp1.apply_advanced_library_rules
      exact mem_of_mem_addAll (mem_of_mem_addAll hb1)
  · intro x y h
    rcases h with h | h | h | h
    · exact wrote_complete_basicT h
    · exact wrote_complete_advT h
    · exact wrote_complete_basic1 h
    · exact wrote_complete_adv1 h

/-- C1 witness: a one-triple graph, its author inversion derived by the
Basic tier of `testapp.py`. -/
theorem C1_author_inversion_witness :
    (exN "Alice", wrote, exN "Book1") ∈
      Testapp.apply_basic_library_rules [(exN "Book1", hasAuthor, exN "Alice")] :=
  (((C1_author_inversion [(exN "Book1", hasAuthor, exN "Alice")]).1
    (exN "Book1") (exN "Alice") (by decide))).1

/-! ### Claim C9: the undocumented `writtenBy` triples of `testapp.py` -/

/-- C9: in the `testapp.py` variant, the Basic (and hence Advanced) fixed
tier adds, for every `(book, hasAuthor, author)` triple, also the triple
`(book, writtenBy, author)`, which the `testapp1.py` tier does not add. -/
theorem C9_writtenBy_undocumented (g : Graph) :
    ∀ b a, (b, hasAuthor, a) ∈ g →
      (b, writtenBy, a) ∈ Testapp.apply_basic_library_rules g ∧
      (b, writtenBy, a) ∈ Testapp.apply_advanced_library_rules g := by
  intro b a h
  have hbT : (b, writtenBy, a) ∈ Testapp.apply_basic_library_rules g := by
    unfold Testapp.apply_basic_library_rules
    exact mem_of_mem_addAll (mem_of_mem_addAll
      (mem_addAll.mpr (Or.inr (writtenBy_mem_authorAddsT h))))
  refine ⟨hbT, ?_⟩
  unfold Testapp.apply_advanced_library_rules
  exact mem_of_mem_addAll (mem_of_mem_addAll hbT)

/-- C9 witness at a one-triple graph. -/
theorem C9_writtenBy_undocumented_witness :
    (exN "Book1", writtenBy, exN "Alice") ∈
      Testapp.apply_basic_library_rules [(exN "Book1", hasAuthor, exN "Alice")] :=
  (C9_writtenBy_undocumented [(exN "Book1", hasAuthor, exN "Alice")]
    (exN "Book1") (exN "Alice") (by decide)).1

/-! ### Predicate-avoidance helpers for the fixed-tier stability arguments -/

theorem authorAddsT_ne {p : Node} (h1 : wrote ≠ p) (h2 : writtenBy ≠ p)
    (g : Graph) : ∀ t ∈ authorAddsT g, t.2.1 ≠ p := by
  intro t ht
  rcases pred_of_mem_authorAddsT ht with e | e <;> rw [e]
  · exact h1
  · exact h2

theorem authorAdds1_ne {p : Node} (h1 : wrote ≠ p) (g : Graph) :
    ∀ t ∈ authorAdds1 g, t.2.1 ≠ p :=
  fun t ht => (pred_of_mem_authorAdds1 ht) ▸ h1

theorem genreRelatedAdds_ne {p : Node} (h1 : relatedTo ≠ p) (g : Graph) :
    ∀ t ∈ genreRelatedAdds g, t.2.1 ≠ p :=
  fun t ht => (pred_of_mem_genreRelatedAdds ht) ▸ h1

theorem frequentAdds_ne {p : Node} (h1 : rdfType ≠ p) (g : Graph) :
    ∀ t ∈ frequentAdds g, t.2.1 ≠ p :=
  fun t ht => (shape_of_mem_frequentAdds ht).1 ▸ h1

theorem expertiseAdds_ne {p : Node} (h1 : hasExpertise ≠ p) (g : Graph) :
    ∀ t ∈ expertiseAdds g, t.2.1 ≠ p :=
  fun t ht => (pred_of_mem_expertiseAdds ht) ▸ h1

theorem recommendAdds_ne {p : Node} (h1 : recommendedFor ≠ p) (g : Graph) :
    ∀ t ∈ recommendAdds g, t.2.1 ≠ p :=
  fun t ht => (pred_of_mem_recommendAdds ht) ▸ h1

theorem userRecommendAdds_ne {p : Node} (h1 : recommendedFor ≠ p) (g : Graph) :
    ∀ t ∈ userRecommendAdds g, t.2.1 ≠ p :=
  fun t ht => (pred_of_mem_userRecommendAdds ht) ▸ h1

theorem nshape_of_ne {F : Graph → List Triple} {g : Graph} {p o : Node}
    (h : ∀ t ∈ F g, t.2.1 ≠ p) : ∀ t ∈ F g, ¬(t.2.1 = p ∧ t.2.2 = o) :=
  fun t ht hc => h t ht hc.1

theorem frequentAdds_nshape {p o : Node} (h : rdfType = p → FrequentBorrower ≠ o)
    (g : Graph) : ∀ t ∈ frequentAdds g, ¬(t.2.1 = p ∧ t.2.2 = o) := by
  intro t ht hc
  obtain ⟨e1, e2⟩ := shape_of_mem_frequentAdds ht
  exact h (e1 ▸ hc.1) (e2 ▸ hc.2)

/-! ### Claim C2: frequent-borrower threshold -/

theorem mem_loansOfMember {pairs : List (Node × Node)} {x m : Node} :
    x ∈ loansOfMember pairs m ↔ (x, m) ∈ pairs := by
  unfold loansOfMember
  simp only [List.mem_filterMap, Option.ite_none_right_eq_some, Option.some.injEq]
  constructor
  · rintro ⟨⟨l, m2⟩, hmem, hm2, hl⟩
    obtain rfl : m2 = m := hm2
    obtain rfl : l = x := hl
    exact hmem
  · intro h
    exact ⟨(x, m), h, rfl, rfl⟩

theorem one_lt_length_of_two_mem {α : Type} {l : List α} {a b : α}
    (ha : a ∈ l) (hb : b ∈ l) (hab : a ≠ b) : 1 < l.length := by
  cases l with
  | nil => cases ha
  | cons x xs =>
    cases xs with
    | nil =>
      rw [List.mem_singleton] at ha hb
      exact absurd (ha.trans hb.symm) hab
    | cons y ys =>
      simp only [List.length_cons]
      omega

theorem exists_two_of_nodup {α : Type} {l : List α} (h1 : 1 < l.length)
    (h2 : l.Nodup) : ∃ a b, a ∈ l ∧ b ∈ l ∧ a ≠ b := by
  cases l with
  | nil => simp at h1
  | cons x xs =>
    cases xs with
    | nil => simp at h1
    | cons y ys =>
      refine ⟨x, y, List.mem_cons_self _ _,
        List.mem_cons_of_mem _ (List.mem_cons_self _ _), ?_⟩
      intro hxy
      subst hxy
      exact (List.nodup_cons.mp h2).1 (List.mem_cons_self _ _)

theorem nodup_subjectObjects {p : Node} {g : Graph} (hg : g.Nodup) :
    (subjectObjects p g).Nodup := by
  unfold subjectObjects
  refine List.Nodup.filterMap ?_ hg
  rintro ⟨s1, p1, o1⟩ ⟨s2, p2, o2⟩ q hq1 hq2
  rw [Option.mem_def] at hq1 hq2
  split at hq1
  · next hp1 =>
    split at hq2
    · next hp2 =>
      injection hq1 with e1
      injection hq2 with e2
      obtain rfl : p1 = p := hp1
      obtain rfl : p2 = p1 := hp2
      rw [← e2] at e1
      injection e1 with es eo
      obtain rfl : s1 = s2 := es
      obtain rfl : o1 = o2 := eo
      rfl
    · cases hq2
  · cases hq1

theorem nodup_loansOfMember {pairs : List (Node × Node)} (hp : pairs.Nodup)
    (m : Node) : (loansOfMember pairs m).Nodup := by
  unfold loansOfMember
  refine List.Nodup.filterMap ?_ hp
  rintro ⟨l1, m1⟩ ⟨l2, m2⟩ b hb1 hb2
  rw [Option.mem_def] at hb1 hb2
  split at hb1
  · next h1 =>
    split at hb2
    · next h2 =>
      injection hb1 with e1
      injection hb2 with e2
      obtain rfl : m1 = m := h1
      obtain rfl : m2 = m1 := h2
      obtain rfl : l1 = b := e1
      obtain rfl : l2 = l1 := e2
      rfl
    · cases hb2
  · cases hb1

theorem mem_frequentOf_of {pairs : List (Node × Node)} {m l0 : Node}
    (h : 1 < (loansOfMember pairs m).length) (hm : (l0, m) ∈ pairs) :
    (m, rdfType, FrequentBorrower) ∈ frequentOf pairs := by
  unfold frequentOf
  rw [List.mem_filterMap]
  refine ⟨m, ?_, ?_⟩
  · rw [List.mem_dedup, List.mem_map]
    exact ⟨(l0, m), hm, rfl⟩
  · rw [if_pos h]

theorem of_mem_frequentOf {pairs : List (Node × Node)} {m : Node}
    (h : (m, rdfType, FrequentBorrower) ∈ frequentOf pairs) :
    1 < (loansOfMember pairs m).length := by
  unfold frequentOf at h
  simp only [List.mem_filterMap, Option.ite_none_right_eq_some,
    Option.some.injEq, Prod.mk.injEq] at h
  obtain ⟨m2, _, hlen, hm, _, _⟩ := h
  subst hm
  exact hlen

/-- `borrowedBy` pairs are untouched by the basic tier of `testapp.py`. -/
theorem borrowedBy_stable_basicT (g : Graph) :
    subjectObjects borrowedBy (Testapp.apply_basic_library_rules g) =
      subjectObjects borrowedBy g := by
  unfold Testapp.apply_basic_library_rules
  rw [subjectObjects_stepRule (frequentAdds_ne (by decide) _),
    subjectObjects_stepRule (genreRelatedAdds_ne (by decide) _),
    subjectObjects_stepRule (authorAddsT_ne (by decide) (by decide) _)]

/-- The two-loan member graph used for the frequent-borrower claim. -/
def c2Graph : Graph :=
  [(exN "Loan1", borrowedBy, exN "Bob"), (exN "Loan2", borrowedBy, exN "Bob")]

/-- C2 counterexample: the claim covers the `testapp1.py` tier as well, but
that variant's basic tier has no frequent-borrower rule, so a member that is
the object of two distinct `borrowedBy` triples carries no
`FrequentBorrower` typing after it. -/
theorem C2_frequent_borrower_counterexample :
    (exN "Loan1", borrowedBy, exN "Bob") ∈ c2Graph ∧
    (exN "Loan2", borrowedBy, exN "Bob") ∈ c2Graph ∧
    exN "Loan1" ≠ exN "Loan2" ∧
    (exN "Bob", rdfType, FrequentBorrower) ∉
      Testapp1.apply_basic_library_rules c2Graph := by decide

theorem typing_mem_basicT {g : Graph} {m : Node}
    (h : (m, rdfType, FrequentBorrower) ∈ Testapp.apply_basic_library_rules g) :
    (m, rdfType, FrequentBorrower) ∈ g ∨
      1 < (loansOfMember (subjectObjects borrowedBy g) m).length := by
  unfold Testapp.apply_basic_library_rules at h
  rcases mem_stepRule.mp h with h | h
  · rcases mem_stepRule.mp h with h | h
    · rcases mem_stepRule.mp h with h | h
      · exact Or.inl h
      · rcases pred_of_mem_authorAddsT h with e | e
        · exact absurd e (show rdfType ≠ wrote from by decide)
        · exact absurd e (show rdfType ≠ writtenBy from by decide)
    · exact absurd (pred_of_mem_genreRelatedAdds h)
        (show rdfType ≠ relatedTo from by decide)
  · refine Or.inr ?_
    have hst : subjectObjects borrowedBy
        (stepRule genreRelatedAdds (stepRule authorAddsT g)) =
        subjectObjects borrowedBy g := by
      rw [subjectObjects_stepRule (genreRelatedAdds_ne (by decide) _),
        subjectObjects_stepRule (authorAddsT_ne (by decide) (by decide) _)]
    unfold frequentAdds at h
    rw [hst] at h
    exact of_mem_frequentOf h

/-- C2 (amended): in the `testapp.py` variant, after the Basic (or Advanced)
tier every member that is the object of two or more distinct `borrowedBy`
triples carries exactly one `(member, rdf:type, FrequentBorrower)` triple;
a member that is the object of at most one `borrowedBy` triple carries none
unless the typing was already present in the input.  The `testapp1.py`
variant's basic tier contains no frequent-borrower rule and adds no such
typings. -/
theorem C2_frequent_borrower_amended (g : Graph) (m : Node) :
    ((∃ l1 l2, l1 ≠ l2 ∧ (l1, borrowedBy, m) ∈ g ∧ (l2, borrowedBy, m) ∈ g) →
      (m, rdfType, FrequentBorrower) ∈ Testapp.apply_basic_library_rules g ∧
      (m, rdfType, FrequentBorrower) ∈ Testapp.apply_advanced_library_rules g) ∧
    (g.Nodup →
      (∀ l1 l2, (l1, borrowedBy, m) ∈ g → (l2, borrowedBy, m) ∈ g → l1 = l2) →
      (m, rdfType, FrequentBorrower) ∉ g →
      (m, rdfType, FrequentBorrower) ∉ Testapp.apply_basic_library_rules g ∧
      (m, rdfType, FrequentBorrower) ∉ Testapp.apply_advanced_library_rules g) ∧
    ((m, rdfType, FrequentBorrower) ∉ g →
      (m, rdfType, FrequentBorrower) ∉ Testapp1.apply_basic_library_rules g) := by
  refine ⟨?_, ?_, ?_⟩
  · rintro ⟨l1, l2, hne, h1, h2⟩
    have hl1 : l1 ∈ loansOfMember (subjectObjects borrowedBy g) m :=
      mem_loansOfMember.mpr (mem_subjectObjects.mpr h1)
    have hl2 : l2 ∈ loansOfMember (subjectObjects borrowedBy g) m :=
      mem_loansOfMember.mpr (mem_subjectObjects.mpr h2)
    have hlen := one_lt_length_of_two_mem hl1 hl2 hne
    have hmemB : (m, rdfType, FrequentBorrower) ∈
        Testapp.apply_basic_library_rules g := by
      unfold Testapp.apply_basic_library_rules
      apply mem_stepRule.mpr
      refine Or.inr ?_
      have hst : subjectObjects borrowedBy
          (stepRule genreRelatedAdds (stepRule authorAddsT g)) =
          subjectObjects borrowedBy g := by
        rw [subjectObjects_stepRule (genreRelatedAdds_ne (by decide) _),
          subjectObjects_stepRule (authorAddsT_ne (by decide) (by decide) _)]
      unfold frequentAdds
      rw [hst]
      exact mem_frequentOf_of hlen (mem_subjectObjects.mpr h1)
    refine ⟨hmemB, ?_⟩
    unfold Testapp.apply_advanced_library_rules
    exact mem_of_mem_addAll (mem_of_mem_addAll hmemB)
  · intro hnd hle hnot
    have hnotB : (m, rdfType, FrequentBorrower) ∉
        Testapp.apply_basic_library_rules g := by
      intro hmem
      rcases typing_mem_basicT hmem with h | h
      · exact hnot h
      · obtain ⟨a, b, ha, hb, hab⟩ := exists_two_of_nodup h
          (nodup_loansOfMember (nodup_subjectObjects hnd) m)
        exact hab (hle a b (mem_subjectObjects.mp (mem_loansOfMember.mp ha))
          (mem_subjectObjects.mp (mem_loansOfMember.mp hb)))
    refine ⟨hnotB, ?_⟩
    intro hmem
    unfold Testapp.apply_advanced_library_rules at hmem
    rcases mem_stepRule.mp hmem with h | h
    · rcases mem_stepRule.mp h with h | h
      · exact hnotB h
      · exact absurd (pred_of_mem_expertiseAdds h)
          (show rdfType ≠ hasExpertise from by decide)
    · exact absurd (pred_of_mem_recommendAdds h)
        (show rdfType ≠ recommendedFor from by decide)
  · intro hnot hmem
    unfold Testapp1.apply_basic_library_rules at hmem
    rcases mem_stepRule.mp hmem with h | h
    · rcases mem_stepRule.mp h with h | h
      · exact hnot h
      · exact absurd (pred_of_mem_authorAdds1 h)
          (show rdfType ≠ wrote from by decide)
    · exact absurd (pred_of_mem_genreRelatedAdds h)
        (show rdfType ≠ relatedTo from by decide)

/-- C2 amended witness: the two-loan graph, the typing derived by
`testapp.py`'s Basic tier. -/
theorem C2_frequent_borrower_amended_witness :
    (exN "Bob", rdfType, FrequentBorrower) ∈
      Testapp.apply_basic_library_rules c2Graph :=
  ((C2_frequent_borrower_amended c2Graph (exN "Bob")).1
    ⟨exN "Loan1", exN "Loan2", by decide, by decide, by decide⟩).1

/-! ### Claim C3: idempotence of the fixed procedural tiers -/

theorem mem_stepRule_old {F : Graph → List Triple} {g : Graph} {t : Triple}
    (h : t ∈ g) : t ∈ stepRule F g :=
  mem_stepRule.mpr (Or.inl h)

theorem mem_stepRule_new {F : Graph → List Triple} {g : Graph} {t : Triple}
    (h : t ∈ F g) : t ∈ stepRule F g :=
  mem_stepRule.mpr (Or.inr h)

theorem flatMap_congr_fun {α β : Type} (l : List α) {f f2 : α → List β}
    (h : ∀ a, f a = f2 a) : l.flatMap f = l.flatMap f2 := by
  rw [funext h]

theorem expertiseAdds_congr {h1 h2 : Graph}
    (e1 : subjectsOf h1 rdfType BookClass = subjectsOf h2 rdfType BookClass)
    (e2 : ∀ s, objectsOf h1 s hasAuthor = objectsOf h2 s hasAuthor)
    (e3 : ∀ s, objectsOf h1 s hasGenre = objectsOf h2 s hasGenre) :
    expertiseAdds h1 = expertiseAdds h2 := by
  unfold expertiseAdds
  rw [e1]
  apply flatMap_congr_fun
  intro book
  rw [e2 book, e3 book]

theorem recommendTargets_congr {h1 h2 : Graph}
    (e1 : subjectObjects hasGenre h1 = subjectObjects hasGenre h2)
    (e2 : ∀ o, subjectsOf h1 hasGenre o = subjectsOf h2 hasGenre o) :
    recommendTargets h1 = recommendTargets h2 := by
  unfold recommendTargets
  rw [e1]
  cases ((subjectObjects hasGenre h2).map Prod.snd).head? with
  | none => rfl
  | some gen => exact e2 gen

theorem recommendAdds_congr {h1 h2 : Graph}
    (e1 : subjectsOf h1 rdfType LoanClass = subjectsOf h2 rdfType LoanClass)
    (e2 : ∀ s, objectsOf h1 s borrowedBy = objectsOf h2 s borrowedBy)
    (eT : recommendTargets h1 = recommendTargets h2) :
    recommendAdds h1 = recommendAdds h2 := by
  unfold recommendAdds
  rw [e1]
  apply flatMap_congr_fun
  intro loan
  rw [e2 loan, eT]

/-- Re-running `testapp.py`'s basic tier on its own output changes nothing:
each step's source relation (`hasAuthor`, `hasGenre`, `borrowedBy`) is never
produced by any step, so the recomputed derivations are already present. -/
theorem hasAuthor_stable_basicT (g : Graph) :
    subjectObjects hasAuthor (Testapp.apply_basic_library_rules g) =
      subjectObjects hasAuthor g := by
  unfold Testapp.apply_basic_library_rules
  rw [subjectObjects_stepRule (frequentAdds_ne (by decide) _),
    subjectObjects_stepRule (genreRelatedAdds_ne (by decide) _),
    subjectObjects_stepRule (authorAddsT_ne (by decide) (by decide) _)]

theorem hasGenre_stable_basicT (g : Graph) :
    subjectObjects hasGenre (Testapp.apply_basic_library_rules g) =
      subjectObjects hasGenre (stepRule authorAddsT g) := by
  unfold Testapp.apply_basic_library_rules
  rw [subjectObjects_stepRule (frequentAdds_ne (by decide) _),
    subjectObjects_stepRule (genreRelatedAdds_ne (by decide) _)]

theorem borrowedBy_stable2_basicT (g : Graph) :
    subjectObjects borrowedBy (Testapp.apply_basic_library_rules g) =
      subjectObjects borrowedBy
        (stepRule genreRelatedAdds (stepRule authorAddsT g)) := by
  unfold Testapp.apply_basic_library_rules
  rw [subjectObjects_stepRule (frequentAdds_ne (by decide) _)]

theorem basicT_idem (g : Graph) :
    Testapp.apply_basic_library_rules (Testapp.apply_basic_library_rules g) =
      Testapp.apply_basic_library_rules g := by
  have e_hA := hasAuthor_stable_basicT g
  have e_hG := hasGenre_stable_basicT g
  have e_bb := borrowedBy_stable2_basicT g
  have step1 : stepRule authorAddsT (Testapp.apply_basic_library_rules g) =
      Testapp.apply_basic_library_rules g := by
    apply stepRule_eq_of_subset
    intro t ht
    unfold authorAddsT at ht
    rw [e_hA] at ht
    have ht2 : t ∈ authorAddsT g := ht
    unfold Testapp.apply_basic_library_rules
    exact mem_stepRule_old (mem_stepRule_old (mem_stepRule_new ht2))
  have step2 : stepRule genreRelatedAdds (Testapp.apply_basic_library_rules g) =
      Testapp.apply_basic_library_rules g := by
    apply stepRule_eq_of_subset
    intro t ht
    unfold genreRelatedAdds at ht
    rw [e_hG] at ht
    have ht2 : t ∈ genreRelatedAdds (stepRule authorAddsT g) := ht
    unfold Testapp.apply_basic_library_rules
    exact mem_stepRule_old (mem_stepRule_new ht2)
  have step3 : stepRule frequentAdds (Testapp.apply_basic_library_rules g) =
      Testapp.apply_basic_library_rules g := by
    apply stepRule_eq_of_subset
    intro t ht
    unfold frequentAdds at ht
    rw [e_bb] at ht
    have ht2 : t ∈ frequentAdds
        (stepRule genreRelatedAdds (stepRule authorAddsT g)) := ht
    unfold Testapp.apply_basic_library_rules
    exact mem_stepRule_new ht2
  calc Testapp.apply_basic_library_rules (Testapp.apply_basic_library_rules g)
      = stepRule frequentAdds (stepRule genreRelatedAdds
          (stepRule authorAddsT (Testapp.apply_basic_library_rules g))) := rfl
    _ = Testapp.apply_basic_library_rules g := by rw [step1, step2, step3]

theorem advT_idem (g : Graph) :
    Testapp.apply_advanced_library_rules
        (Testapp.apply_advanced_library_rules g) =
      Testapp.apply_advanced_library_rules g := by
  have s_hA : subjectObjects hasAuthor (Testapp.apply_advanced_library_rules g) =
      subjectObjects hasAuthor g := by
    unfold Testapp.apply_advanced_library_rules
    rw [subjectObjects_stepRule (recommendAdds_ne (by decide) _),
      subjectObjects_stepRule (expertiseAdds_ne (by decide) _),
      hasAuthor_stable_basicT]
  have s_hG : subjectObjects hasGenre (Testapp.apply_advanced_library_rules g) =
      subjectObjects hasGenre (stepRule authorAddsT g) := by
    unfold Testapp.apply_advanced_library_rules
    rw [subjectObjects_stepRule (recommendAdds_ne (by decide) _),
      subjectObjects_stepRule (expertiseAdds_ne (by decide) _),
      hasGenre_stable_basicT]
  have s_bb : subjectObjects borrowedBy (Testapp.apply_advanced_library_rules g) =
      subjectObjects borrowedBy
        (stepRule genreRelatedAdds (stepRule authorAddsT g)) := by
    unfold Testapp.apply_advanced_library_rules
    rw [subjectObjects_stepRule (recommendAdds_ne (by decide) _),
      subjectObjects_stepRule (expertiseAdds_ne (by decide) _),
      borrowedBy_stable2_basicT]
  have memBA : ∀ {t : Triple}, t ∈ Testapp.apply_basic_library_rules g →
      t ∈ Testapp.apply_advanced_library_rules g := by
    intro t ht
    unfold Testapp.apply_advanced_library_rules
    exact mem_stepRule_old (mem_stepRule_old ht)
  have b1 : Testapp.apply_basic_library_rules
      (Testapp.apply_advanced_library_rules g) =
      Testapp.apply_advanced_library_rules g := by
    have t1 : stepRule authorAddsT (Testapp.apply_advanced_library_rules g) =
        Testapp.apply_advanced_library_rules g := by
      apply stepRule_eq_of_subset
      intro t ht
      unfold authorAddsT at ht
      rw [s_hA] at ht
      have ht2 : t ∈ authorAddsT g := ht
      apply memBA
      unfold Testapp.apply_basic_library_rules
      exact mem_stepRule_old (mem_stepRule_old (mem_stepRule_new ht2))
    have t2 : stepRule genreRelatedAdds (Testapp.apply_advanced_library_rules g) =
        Testapp.apply_advanced_library_rules g := by
      apply stepRule_eq_of_subset
      intro t ht
      unfold genreRelatedAdds at ht
      rw [s_hG] at ht
      have ht2 : t ∈ genreRelatedAdds (stepRule authorAddsT g) := ht
      apply memBA
      unfold Testapp.apply_basic_library_rules
      exact mem_stepRule_old (mem_stepRule_new ht2)
    have t3 : stepRule frequentAdds (Testapp.apply_advanced_library_rules g) =
        Testapp.apply_advanced_library_rules g := by
      apply stepRule_eq_of_subset
      intro t ht
      unfold frequentAdds at ht
      rw [s_bb] at ht
      have ht2 : t ∈ frequentAdds
          (stepRule genreRelatedAdds (stepRule authorAddsT g)) := ht
      apply memBA
      unfold Testapp.apply_basic_library_rules
      exact mem_stepRule_new ht2
    calc Testapp.apply_basic_library_rules
          (Testapp.apply_advanced_library_rules g)
        = stepRule frequentAdds (stepRule genreRelatedAdds
            (stepRule authorAddsT (Testapp.apply_advanced_library_rules g))) := rfl
      _ = Testapp.apply_advanced_library_rules g := by rw [t1, t2, t3]
  have t4 : stepRule expertiseAdds (Testapp.apply_advanced_library_rules g) =
      Testapp.apply_advanced_library_rules g := by
    apply stepRule_eq_of_subset
    intro t ht
    have e4 : expertiseAdds (Testapp.apply_advanced_library_rules g) =
        expertiseAdds (Testapp.apply_basic_library_rules g) := by
      apply expertiseAdds_congr
      · unfold Testapp.apply_advanced_library_rules
        rw [subjectsOf_stepRule (nshape_of_ne (recommendAdds_ne (by decide) _)),
          subjectsOf_stepRule (nshape_of_ne (expertiseAdds_ne (by decide) _))]
      · intro s
        unfold Testapp.apply_advanced_library_rules
        rw [objectsOf_stepRule (recommendAdds_ne (by decide) _),
          objectsOf_stepRule (expertiseAdds_ne (by decide) _)]
      · intro s
        unfold Testapp.apply_advanced_library_rules
        rw [objectsOf_stepRule (recommendAdds_ne (by decide) _),
          objectsOf_stepRule (expertiseAdds_ne (by decide) _)]
    rw [e4] at ht
    unfold Testapp.apply_advanced_library_rules
    exact mem_stepRule_old (mem_stepRule_new ht)
  have t5 : stepRule recommendAdds (Testapp.apply_advanced_library_rules g) =
      Testapp.apply_advanced_library_rules g := by
    apply stepRule_eq_of_subset
    intro t ht
    have e5 : recommendAdds (Testapp.apply_advanced_library_rules g) =
        recommendAdds
          (stepRule expertiseAdds (Testapp.apply_basic_library_rules g)) := by
      apply recommendAdds_congr
      · unfold Testapp.apply_advanced_library_rules
        rw [subjectsOf_stepRule (nshape_of_ne (recommendAdds_ne (by decide) _))]
      · intro s
        unfold Testapp.apply_advanced_library_rules
        rw [objectsOf_stepRule (recommendAdds_ne (by decide) _)]
      · apply recommendTargets_congr
        · unfold Testapp.apply_advanced_library_rules
          rw [subjectObjects_stepRule (recommendAdds_ne (by decide) _)]
        · intro o
          unfold Testapp.apply_advanced_library_rules
          rw [subjectsOf_stepRule (nshape_of_ne (recommendAdds_ne (by decide) _))]
    rw [e5] at ht
    unfold Testapp.apply_advanced_library_rules
    exact mem_stepRule_new ht
  calc Testapp.apply_advanced_library_rules
        (Testapp.apply_advanced_library_rules g)
      = stepRule recommendAdds (stepRule expertiseAdds
          (Testapp.apply_basic_library_rules
            (Testapp.apply_advanced_library_rules g))) := rfl
    _ = Testapp.apply_advanced_library_rules g := by rw [b1, t4, t5]

/-- C3: the fixed procedural tiers of `testapp.py` are idempotent: applying
the Basic (respectively Advanced) pipeline to its own output yields the same
graph (here even as a list, hence certainly as a triple set). -/
theorem C3_fixed_tiers_idempotent (g : Graph) (t : Triple) :
    (t ∈ Testapp.apply_basic_library_rules
        (Testapp.apply_basic_library_rules g) ↔
      t ∈ Testapp.apply_basic_library_rules g) ∧
    (t ∈ Testapp.apply_advanced_library_rules
        (Testapp.apply_advanced_library_rules g) ↔
      t ∈ Testapp.apply_advanced_library_rules g) := by
  rw [basicT_idem, advT_idem]
  exact ⟨Iff.rfl, Iff.rfl⟩

/-! ### Text layer for the rule languages

Rule text is modelled as its character list (`Str`), with structurally
recursive splitters mirroring the Python string operations the source uses
(`split('\n')`, `split('=>')`, `split('.')`, whitespace `split()`,
`strip()`, `startswith`, substring `in`), so that every definition is
computable by the kernel. -/

abbrev Str := List Char

/-- `s.split(c)` for a single-character separator: empty pieces are kept. -/
def splitPred (p : Char → Bool) : Str → List Str
  | [] => [[]]
  | c :: rest =>
      if p c then [] :: splitPred p rest
      else
        match splitPred p rest with
        | [] => [[c]]
        | q :: qs => (c :: q) :: qs

/-- `s.split("=>")`: leftmost-first scan for the two-character separator. -/
def splitArrow : Str → List Str
  | [] => [[]]
  | '=' :: '>' :: rest => [] :: splitArrow rest
  | c :: rest =>
      match splitArrow rest with
      | [] => [[c]]
      | q :: qs => (c :: q) :: qs

/-- Python `s.strip()`. -/
def pyStrip (s : Str) : Str :=
  ((s.dropWhile Char.isWhitespace).reverse.dropWhile Char.isWhitespace).reverse

/-- Python `s.split()` (no argument): whitespace runs, no empty pieces. -/
def pySplitWs (s : Str) : List Str :=
  (splitPred Char.isWhitespace s).filter (fun x => x ≠ [])

/-- Python `pat in s` (substring containment). -/
def containsSub (s pat : Str) : Bool :=
  s.tails.any (fun suf => pat.isPrefixOf suf)

/-- `[rule.strip() for rule in rules_text.split('\n') if rule.strip()]`. -/
def strippedLines (text : Str) : List Str :=
  ((splitPred (fun c => c = '\n') text).map pyStrip).filter (fun r => r ≠ [])

/-! ### The declarative (CWM-style) rule tier of `testapp1.py`

`apply_cwm_rules` builds, for each rule line, a SPARQL `SELECT *` query
from the antecedent and runs it with rdflib's query engine, which is not
part of this repository.  The basic-graph-pattern evaluation below is
modelled from the spec: §4.2 Evaluate — incremental join over the ordered
pattern list, one binding row per match, every variable of the evaluated
patterns bound in every row.  The tokens of the generated query text are
modelled from the spec: §4.3's token grammar restricted to what the
generated text can contain — `?name` is a variable, `ex:name` resolves
through the `PREFIX ex:` declaration the source emits, and any other token
(a bare word, or a full IRI without angle brackets) is not a valid term of
the generated query, so the query raises and the rule is skipped by the
source's per-rule `except: continue`. -/

/-- A term of a query pattern: a variable (by name) or a concrete node. -/
inductive QTerm where
  | var (n : Str)
  | term (t : Node)
deriving DecidableEq

/-- A binding row: variable name to matched node. -/
abbrev Binding := List (Str × Node)

/-- Modelled from the spec: §4.2 — match one pattern position against a
stored term, checking an existing binding or extending the row. -/
def matchTerm (b : Binding) : QTerm → Node → Option Binding
  | .term t, n => if t = n then some b else none
  | .var v, n =>
      match List.lookup v b with
      | some m => if m = n then some b else none
      | none => some ((v, n) :: b)

/-- Modelled from the spec: §4.2 — match a full triple pattern. -/
def matchTriple (b : Binding) (pat : QTerm × QTerm × QTerm) (tr : Triple) :
    Option Binding := do
  let b1 ← matchTerm b pat.1 tr.1
  let b2 ← matchTerm b1 pat.2.1 tr.2.1
  matchTerm b2 pat.2.2 tr.2.2

/-- Modelled from the spec: §4.2 Evaluate — incremental join of the ordered
pattern list against the graph, starting from one empty row. -/
def evalPatterns (g : Graph) (pats : List (QTerm × QTerm × QTerm)) :
    List Binding :=
  pats.foldl
    (fun rows pat => rows.flatMap (fun b => g.filterMap (matchTriple b pat)))
    [[]]

/-- Modelled from the spec: the term grammar of the generated query text
(§4.3): `?name` is a variable — a name must be nonempty and not itself
start with `?` — and `ex:name` resolves against the default namespace; any
other token is invalid and fails the query. -/
def tokenTerm (tok : Str) : Option QTerm :=
  if tok.head? = some '?' then
    if tok.drop 1 = [] ∨ (tok.drop 1).head? = some '?' then none
    else some (QTerm.var (tok.drop 1))
  else if ['e', 'x', ':'].isPrefixOf tok then
    some (QTerm.term (Node.uri (EXbase ++ String.mk (tok.drop 3))))
  else none

/-- The query token the source emits for an antecedent predicate (lines
173-182 of `testapp1.py`): a variable predicate `?x` becomes
`f"?{Variable(x).n3()}"` — that is `"??x"` — while a bare predicate not
beginning with `http://`/`https://` is prefixed `ex:` and a
scheme-prefixed one is emitted verbatim. -/
def predToken (p : Str) : Str :=
  if p.head? = some '?' then '?' :: p
  else if ['h', 't', 't', 'p', ':', '/', '/'].isPrefixOf p ||
      ['h', 't', 't', 'p', 's', ':', '/', '/'].isPrefixOf p then p
  else ['e', 'x', ':'] ++ p

/-- Build the modelled query patterns from the antecedent clauses: subject
and object tokens are emitted verbatim, the predicate through `predToken`;
an invalid token anywhere fails the whole query. -/
def buildPatterns : List (Str × Str × Str) → Option (List (QTerm × QTerm × QTerm))
  | [] => some []
  | cl :: rest => do
      let s ← tokenTerm cl.1
      let p ← tokenTerm (predToken cl.2.1)
      let o ← tokenTerm cl.2.2
      let tail ← buildPatterns rest
      some ((s, p, o) :: tail)

/-- Parse one `.`-separated clause list of a rule side: each nonblank piece
must consist of exactly three whitespace-separated tokens
(`s, p, o = [x.strip() for x in triple.split()]` raises otherwise). -/
def parsePieces : List Str → Option (List (Str × Str × Str))
  | [] => some []
  | piece :: rest =>
      if pyStrip piece = [] then parsePieces rest
      else
        match pySplitWs piece with
        | [a, b, c] => do
            let tail ← parsePieces rest
            some ((a, b, c) :: tail)
        | _ => none

def parseClauses (s : Str) : Option (List (Str × Str × Str)) :=
  parsePieces (splitPred (fun c => c = '.') (pyStrip s))

namespace Testapp1

/-- `testapp1.py` `parse_cwm_rule`: split the line at `=>` (exactly one
occurrence required), then parse both clause lists; `none` models the
raised `ValueError`. -/
def parse_cwm_rule (rule_text : Str) :
    Option (List (Str × Str × Str) × List (Str × Str × Str)) :=
  match splitArrow rule_text with
  | [a, c] => do
      let ant ← parseClauses a
      let cons ← parseClauses c
      some (ant, cons)
  | _ => none

end Testapp1

/-- Resolve one consequent token under a binding row (`testapp1.py` lines
199-221): a `?` token is looked up in the bindings — an unbound variable
skips the whole consequent triple — and any other token is unconditionally
resolved against the default namespace `EX`. -/
def resolveCons (row : Binding) (tok : Str) : Option Node :=
  if tok.head? = some '?' then List.lookup (tok.drop 1) row
  else some (Node.uri (EXbase ++ String.mk tok))

/-- Instantiate the consequent clauses under a row, skipping any clause
with an unbound variable. -/
def instantiateCons (cons : List (Str × Str × Str)) (row : Binding) :
    List Triple :=
  cons.filterMap (fun cl => do
    let s ← resolveCons row cl.1
    let p ← resolveCons row cl.2.1
    let o ← resolveCons row cl.2.2
    some (s, p, o))

/-- Process one declarative rule line against the running graph: parse,
build and evaluate the query, then fold in the instantiated consequents
for every binding row; `none` models any exception, which the caller
catches and skips. -/
def processRule (ng : Graph) (rule : Str) : Option Graph := do
  let pc ← Testapp1.parse_cwm_rule rule
  let pats ← buildPatterns pc.1
  let rows := evalPatterns ng pats
  some (rows.foldl (fun h row => addAll h (instantiateCons pc.2 row)) ng)

/-- The per-line loop of `apply_cwm_rules`: a failing line is skipped and
processing continues with the next (`except ... continue`). -/
def applyCwmLines (ng : Graph) (lines : List Str) : Graph :=
  lines.foldl (fun h r => (processRule h r).getD h) ng

/-- `for triple in graph: new_graph.add(triple)` into a fresh graph. -/
def copyGraph (g : Graph) : Graph := addAll [] g

namespace Testapp1

/-- `testapp1.py` `apply_cwm_rules`: an empty rules text returns the input
graph itself; otherwise all triples are copied into a fresh graph and the
rule lines are applied one by one to the copy, which is returned. -/
def apply_cwm_rules (g : Graph) (rules_text : Str) : Graph :=
  if rules_text = [] then g
  else applyCwmLines (copyGraph g) (strippedLines rules_text)

/-- State-passing view of `apply_cwm_rules`: the first component is the
contents of the caller's input graph object after the call, the second the
returned graph.  In the source the input graph is only read (by the copy
loop) and every `add` of the rule loop targets `new_graph`; the embedding
makes this explicit by threading the input contents through the per-line
loop unchanged alongside the running copy. -/
def apply_cwm_rules_state (g : Graph) (rules_text : Str) : Graph × Graph :=
  if rules_text = [] then (g, g)
  else
    (strippedLines rules_text).foldl
      (fun (st : Graph × Graph) r => (st.1, (processRule st.2 r).getD st.2))
      (g, copyGraph g)

end Testapp1

/-! ### Claims C5, C6, C7, C10: the declarative tier -/

theorem mem_foldl_addAll {β : Type} {t : Triple} {f : β → List Triple} :
    ∀ {rows : List β} {h : Graph}, t ∈ h →
      t ∈ rows.foldl (fun hh row => addAll hh (f row)) h := by
  intro rows
  induction rows with
  | nil => intro h ht; exact ht
  | cons r rest ih => intro h ht; exact ih (mem_of_mem_addAll ht)

theorem mem_processRule {t : Triple} {h h2 : Graph} {r : Str}
    (hp : processRule h r = some h2) (ht : t ∈ h) : t ∈ h2 := by
  unfold processRule at hp
  cases hparse : Testapp1.parse_cwm_rule r with
  | none => rw [hparse] at hp; cases hp
  | some pc =>
      rw [hparse] at hp
      simp only [Option.bind_eq_bind, Option.some_bind] at hp
      cases hbuild : buildPatterns pc.1 with
      | none =>
          rw [hbuild] at hp
          simp only [Option.none_bind] at hp
          exact Option.noConfusion hp
      | some pats =>
          rw [hbuild] at hp
          simp only [Option.some_bind, Option.some.injEq] at hp
          rw [← hp]
          exact mem_foldl_addAll ht

theorem mem_applyCwmLines {t : Triple} :
    ∀ {lines : List Str} {h : Graph}, t ∈ h → t ∈ applyCwmLines h lines := by
  intro lines
  induction lines with
  | nil => intro h ht; exact ht
  | cons r rest ih =>
      intro h ht
      show t ∈ applyCwmLines ((processRule h r).getD h) rest
      apply ih
      cases hp : processRule h r with
      | none => exact ht
      | some h2 => exact mem_processRule hp ht

/-- C7: the declarative tier is monotone: whatever the rules text, every
triple of the input graph is present in the graph `apply_cwm_rules`
returns. -/
theorem C7_cwm_monotone (g : Graph) (rules_text : Str) (t : Triple)
    (ht : t ∈ g) : t ∈ Testapp1.apply_cwm_rules g rules_text := by
  unfold Testapp1.apply_cwm_rules
  split
  · exact ht
  · apply mem_applyCwmLines
    unfold copyGraph
    exact mem_addAll.mpr (Or.inr ht)

/-- C7 witness: a one-triple graph survives a rule application. -/
theorem C7_cwm_monotone_witness :
    (exN "Book1", hasAuthor, exN "Alice") ∈
      Testapp1.apply_cwm_rules [(exN "Book1", hasAuthor, exN "Alice")]
        "?x hasAuthor ?y => ?y wrote ?x".toList :=
  C7_cwm_monotone _ _ _ (by decide)

theorem cwmStateFold (lines : List Str) :
    ∀ a b : Graph,
      lines.foldl (fun (st : Graph × Graph) r =>
          (st.1, (processRule st.2 r).getD st.2)) (a, b) =
        (a, applyCwmLines b lines) := by
  induction lines with
  | nil => intro a b; rfl
  | cons r rest ih =>
      intro a b
      exact ih a ((processRule b r).getD b)

/-- C10: `apply_cwm_rules` never mutates the caller's graph object: in the
state-passing view the input contents come back unchanged and the result is
the returned graph; an empty rules text returns the input graph itself, and
the fresh copy used otherwise holds exactly the input triples. -/
theorem C10_cwm_no_input_mutation (g : Graph) (rules_text : Str) :
    (Testapp1.apply_cwm_rules_state g rules_text).1 = g ∧
    (Testapp1.apply_cwm_rules_state g rules_text).2 =
      Testapp1.apply_cwm_rules g rules_text ∧
    (rules_text = [] → Testapp1.apply_cwm_rules g rules_text = g) ∧
    (∀ t, t ∈ copyGraph g ↔ t ∈ g) := by
  refine ⟨?_, ?_, ?_, ?_⟩
  · unfold Testapp1.apply_cwm_rules_state
    by_cases he : rules_text = []
    · rw [if_pos he]
    · rw [if_neg he, cwmStateFold]
  · unfold Testapp1.apply_cwm_rules_state Testapp1.apply_cwm_rules
    by_cases he : rules_text = []
    · rw [if_pos he, if_pos he]
    · rw [if_neg he, if_neg he, cwmStateFold]
  · intro he
    unfold Testapp1.apply_cwm_rules
    rw [if_pos he]
  · intro t
    unfold copyGraph
    rw [mem_addAll]
    simp

/-- C10 witness: concrete no-mutation and empty-text identity. -/
theorem C10_cwm_no_input_mutation_witness :
    (Testapp1.apply_cwm_rules_state [(exN "Book1", hasAuthor, exN "Alice")]
        "?x hasAuthor ?y => ?y wrote ?x".toList).1 =
      [(exN "Book1", hasAuthor, exN "Alice")] ∧
    Testapp1.apply_cwm_rules [(exN "Book1", hasAuthor, exN "Alice")] [] =
      [(exN "Book1", hasAuthor, exN "Alice")] :=
  ⟨(C10_cwm_no_input_mutation _ _).1,
   (C10_cwm_no_input_mutation [(exN "Book1", hasAuthor, exN "Alice")] []).2.2.1 rfl⟩

/-- C5: a declarative rule line that fails to parse (here: no `=>`) is
skipped, the rest of the batch is processed as if the line were absent, and
in the concrete two-line scenario of §8 the valid line's derivation is
present in the output. -/
theorem C5_cwm_per_rule_isolation :
    (∀ (h : Graph) (rest : List Str) (bad : Str),
        (splitArrow bad).length = 1 →
        applyCwmLines h (bad :: rest) = applyCwmLines h rest) ∧
    (exN "Alice", wrote, exN "Book1") ∈
      Testapp1.apply_cwm_rules [(exN "Book1", hasAuthor, exN "Alice")]
        "no arrow here\n?x hasAuthor ?y => ?y wrote ?x".toList := by
  constructor
  · intro h rest bad hbad
    have hparse : Testapp1.parse_cwm_rule bad = none := by
      unfold Testapp1.parse_cwm_rule
      cases hsp : splitArrow bad with
      | nil => rw [hsp] at hbad
      | cons x xs =>
        cases xs with
        | nil => rfl
        | cons y ys => rw [hsp] at hbad; simp at hbad
    have hp : processRule h bad = none := by
      unfold processRule
      rw [hparse]
      rfl
    show applyCwmLines ((processRule h bad).getD h) rest = applyCwmLines h rest
    rw [hp]
    rfl
  · decide

/-- The one-triple graph and the rule with a full-IRI consequent object used
for the token-resolution claim. -/
def c6Graph : Graph := [(exN "Book1", hasAuthor, exN "Alice")]

def c6Rule : Str := "?x hasAuthor ?y => ?y wrote http://other/z".toList

/-- C6 counterexample: a consequent token that already begins with a URI
scheme is not used unchanged — the default namespace base is prefixed onto
it unconditionally (line 221: `URIRef(EX + o)`), so the derived triple's
object is `EX + "http://other/z"`, not the IRI `http://other/z`. -/
theorem C6_token_resolution_counterexample :
    (exN "Alice", wrote, Node.uri (EXbase ++ "http://other/z")) ∈
      Testapp1.apply_cwm_rules c6Graph c6Rule ∧
    (exN "Alice", wrote, Node.uri "http://other/z") ∉
      Testapp1.apply_cwm_rules c6Graph c6Rule := by decide

/-- C6 (amended): `?` tokens are variables; in the consequent every bare
token, in all three positions, is resolved against the default namespace
unconditionally — even when it begins with a URI scheme; in the antecedent
only the predicate is namespace-resolved (when it does not begin with
`http://`/`https://`), while bare subjects and objects are passed verbatim
into the generated query, where (in the modelled term grammar) a token that
is neither a variable nor an `ex:` prefixed name is invalid and the rule is
skipped. -/
theorem C6_token_resolution_amended :
    (∀ (row : Binding) (s p o : Str),
        s.head? ≠ some '?' → p.head? ≠ some '?' → o.head? ≠ some '?' →
        instantiateCons [(s, p, o)] row =
          [(Node.uri (EXbase ++ String.mk s), Node.uri (EXbase ++ String.mk p),
            Node.uri (EXbase ++ String.mk o))]) ∧
    (∀ (x y p : Str),
        x ≠ [] → x.head? ≠ some '?' → y ≠ [] → y.head? ≠ some '?' →
        p.head? ≠ some '?' →
        ['h', 't', 't', 'p', ':', '/', '/'].isPrefixOf p = false →
        ['h', 't', 't', 'p', 's', ':', '/', '/'].isPrefixOf p = false →
        buildPatterns [('?' :: x, p, '?' :: y)] =
          some [(QTerm.var x, QTerm.term (Node.uri (EXbase ++ String.mk p)),
            QTerm.var y)]) ∧
    (∀ (s p o : Str), s.head? ≠ some '?' →
        ['e', 'x', ':'].isPrefixOf s = false →
        buildPatterns [(s, p, o)] = none) := by
  refine ⟨?_, ?_, ?_⟩
  · intro row s p o hs hp ho
    unfold instantiateCons resolveCons
    simp [hs, hp, ho]
  · intro x y p hx1 hx2 hy1 hy2 hp1 hp2 hp3
    unfold buildPatterns tokenTerm predToken
    simp [hx1, hx2, hy1, hy2, hp1, hp2, hp3, List.isPrefixOf]
    rfl
  · intro s p o hs hs2
    unfold buildPatterns tokenTerm
    simp [hs, hs2]

/-- C6 amended witness at concrete tokens. -/
theorem C6_token_resolution_amended_witness :
    instantiateCons [("Alice".toList, "wrote".toList, "http://other/z".toList)]
        [] =
      [(Node.uri (EXbase ++ "Alice"), Node.uri (EXbase ++ "wrote"),
        Node.uri (EXbase ++ "http://other/z"))] :=
  (C6_token_resolution_amended).1 [] "Alice".toList "wrote".toList
    "http://other/z".toList (by decide) (by decide) (by decide)

/-! ### Claim C4: the textual heuristic ("custom") rule tier of `testapp1.py`

`apply_custom_rules` mutates the graph it is given in place.  The embedding
threads the mutated contents explicitly and reports whether the batch
raised: the loop stops at the first line whose `rule.split("=>")` does not
unpack into exactly two parts, re-raised as `ValueError` after logging. -/

/-- One line of the custom tier: no `=>` — the line is silently ignored;
exactly one `=>` — the single recognized condition/action pair
(`hasAuthor` in the condition, `wrote` in the action) triggers the author
inversion on the current graph; two or more `=>` — the tuple unpacking
raises (`none`). -/
def customStep (g : Graph) (rule : Str) : Option Graph :=
  match splitArrow rule with
  | [_] => some g
  | [c, a] =>
      if containsSub (pyStrip c) "hasAuthor".toList &&
          containsSub (pyStrip a) "wrote".toList then
        some (addAll g (authorAdds1 g))
      else some g
  | _ => none

/-- The batch loop over the (in-place mutated) input graph: the result is
its contents when the loop ends or raises, with `true` meaning the batch
raised. -/
def customRun : Graph → List Str → Graph × Bool
  | g, [] => (g, false)
  | g, r :: rest =>
      match customStep g r with
      | some g2 => customRun g2 rest
      | none => (g, true)

namespace Testapp1

/-- `testapp1.py` `apply_custom_rules`, state-passing view: an empty rules
text returns the input unchanged with no error; otherwise the stripped
nonblank lines are processed in order directly on the input graph object.
A `true` second component means the batch raised `ValueError`; the caller's
graph object then still holds the first component. -/
def apply_custom_rules_state (g : Graph) (rules_text : Str) : Graph × Bool :=
  if rules_text = [] then (g, false)
  else customRun g (strippedLines rules_text)

end Testapp1

/-- The one-book graph and a batch whose second line is malformed (two
`=>`), used for the custom-tier claim. -/
def c4Graph : Graph := [(exN "Book1", hasAuthor, exN "Alice")]

def c4Text : Str := "x hasAuthor y => y wrote x\nbad => worse => worst".toList

/-- C4 counterexample: the malformed second line aborts the batch with an
error, but the derivation of the first line is retained in the caller's
graph object — the graph is not left unchanged and the partial effect is
not rolled back. -/
theorem C4_custom_batch_counterexample :
    Testapp1.apply_custom_rules_state c4Graph c4Text =
      ([(exN "Book1", hasAuthor, exN "Alice"),
        (exN "Alice", wrote, exN "Book1")], true) ∧
    (exN "Alice", wrote, exN "Book1") ∉ c4Graph := by decide

theorem customStep_some {g : Graph} {r : Str}
    (h : (splitArrow r).length = 1 ∨ (splitArrow r).length = 2) :
    ∃ g2, customStep g r = some g2 := by
  unfold customStep
  rcases h with h | h
  · obtain ⟨x, hx⟩ : ∃ x, splitArrow r = [x] := by
      cases hsp : splitArrow r with
      | nil => rw [hsp] at h; simp at h
      | cons x xs =>
        cases xs with
        | nil => exact ⟨x, rfl⟩
        | cons y ys => rw [hsp] at h; simp at h
    rw [hx]
    exact ⟨g, rfl⟩
  · obtain ⟨x, y, hxy⟩ : ∃ x y, splitArrow r = [x, y] := by
      cases hsp : splitArrow r with
      | nil => rw [hsp] at h; simp at h
      | cons x xs =>
        cases xs with
        | nil => rw [hsp] at h; simp at h
        | cons y ys =>
          cases ys with
          | nil => exact ⟨x, y, rfl⟩
          | cons z zs => rw [hsp] at h; simp at h
    rw [hxy]
    dsimp only
    split
    · exact ⟨_, rfl⟩
    · exact ⟨_, rfl⟩

theorem customStep_mono {g g2 : Graph} {r : Str} {t : Triple}
    (h : customStep g r = some g2) (ht : t ∈ g) : t ∈ g2 := by
  unfold customStep at h
  split at h
  · injection h with h2
    rw [← h2]
    exact ht
  · split at h
    · injection h with h2
      rw [← h2]
      exact mem_of_mem_addAll ht
    · injection h with h2
      rw [← h2]
      exact ht
  · exact Option.noConfusion h

/-- C4 (amended): a recognized line with a duplicated separator makes the
batch raise (`ValueError`, logged as a rule-processing error) at that line:
lines after it are not processed; but because derivation mutates the input
graph in place, the caller's graph keeps the triples derived by the lines
before the malformed one (the final contents are exactly the fold of those
lines, a superset of the input) — no rollback happens. -/
theorem C4_custom_batch_amended (g : Graph) (pre post : List Str) (bad : Str) :
    (∀ r ∈ pre, (splitArrow r).length = 1 ∨ (splitArrow r).length = 2) →
    2 < (splitArrow bad).length →
    (customRun g (pre ++ bad :: post) =
      (pre.foldl (fun h r => (customStep h r).getD h) g, true) ∧
    ∀ t ∈ g, t ∈ pre.foldl (fun h r => (customStep h r).getD h) g) := by
  induction pre generalizing g with
  | nil =>
      intro _ hbad
      constructor
      · have hnone : customStep g bad = none := by
          obtain ⟨x, y, z, zs, hsp⟩ :
              ∃ x y z zs, splitArrow bad = x :: y :: z :: zs := by
            cases hsp : splitArrow bad with
            | nil => rw [hsp] at hbad; simp at hbad
            | cons x xs =>
              cases xs with
              | nil => rw [hsp] at hbad; simp at hbad
              | cons y ys =>
                cases ys with
                | nil => rw [hsp] at hbad; simp at hbad
                | cons z zs => exact ⟨x, y, z, zs, rfl⟩
          unfold customStep
          rw [hsp]
        show (match customStep g bad with
          | some g2 => customRun g2 post
          | none => (g, true)) = (g, true)
        rw [hnone]
      · intro t ht
        exact ht
  | cons r pre ih =>
      intro hpre hbad
      obtain ⟨g2, hg2⟩ := customStep_some (g := g) (hpre r (List.mem_cons_self _ _))
      have hfold : (r :: pre).foldl (fun h r => (customStep h r).getD h) g =
          pre.foldl (fun h r => (customStep h r).getD h) g2 := by
        show pre.foldl _ ((customStep g r).getD g) = _
        rw [hg2]
        rfl
      have hrun : customRun g ((r :: pre) ++ bad :: post) =
          customRun g2 (pre ++ bad :: post) := by
        show (match customStep g r with
          | some gg => customRun gg (pre ++ bad :: post)
          | none => (g, true)) = _
        rw [hg2]
      obtain ⟨ih1, ih2⟩ :=
        ih g2 (fun r2 hr2 => hpre r2 (List.mem_cons_of_mem _ hr2)) hbad
      constructor
      · rw [hrun, ih1, hfold]
      · intro t ht
        rw [hfold]
        exact ih2 t (customStep_mono hg2 ht)

/-- C4 amended witness: one good line, then the malformed one. -/
theorem C4_custom_batch_amended_witness :
    customRun c4Graph ["x hasAuthor y => y wrote x".toList,
        "bad => worse => worst".toList] =
      ([(exN "Book1", hasAuthor, exN "Alice"),
        (exN "Alice", wrote, exN "Book1")], true) := by
  have h := (C4_custom_batch_amended c4Graph
    ["x hasAuthor y => y wrote x".toList] []
    "bad => worse => worst".toList (by decide) (by decide)).1
  exact h.trans (by decide)

/-! ### Claim C8: SELECT projection

The SELECT result rows come from rdflib's query engine, which is not part
of this repository; they are modelled from the spec: §4.2 — the headers are
the query's projected variables, and a row associates each of them with its
bound term, or with the null value when the query leaves it unbound in that
row.  rdflib's `ResultRow` stores an entry for every projected variable:
indexing the row returns the stored value — the null, rendered `"None"`,
when unbound — and raises `KeyError` only for a variable that is not among
the row's labels; `ResultRow.get(var, default)` is that indexing wrapped in
`except KeyError: return default`. -/

/-- A SELECT result row: projected variable name to optional bound term. -/
abbrev Row := List (String × Option Node)

/-- Row lookup (`row[var]`, `binding.get(var, …)`): an absent or unbound
variable yields nothing. -/
def rowGet (row : Row) (v : String) : Option Node :=
  match List.lookup v row with
  | some x => x
  | none => none

/-- `str` of a term: an IRI renders as its string, a literal as its lexical
value, a blank node as its id. -/
def render : Node → String
  | .uri s => s
  | .lit s => s
  | .bnode s => s

/-- `str(row[var])`: the bound term's form, or `"None"` — the textual form
of Python's null — when the variable is unbound in the row. -/
def pyStr : Option Node → String
  | some n => render n
  | none => "None"

namespace Testapp

/-- `testapp.py` lines 256-259:
`[[str(row[var]) for var in headers] for row in result]`. -/
def run_query_select (headers : List String) (result : List Row) :
    List (List String) :=
  result.map (fun row => headers.map (fun var => pyStr (rowGet row var)))

end Testapp

/-- `str(binding.get(var, dflt))` with rdflib `ResultRow.get` semantics:
a variable among the row's labels returns its stored value — the null when
unbound, whose string form is `"None"` — so the supplied default is
returned only when the variable is absent from the row's labels
(`KeyError`). -/
def getWithDefault (binding : Row) (var dflt : String) : String :=
  match List.lookup var binding with
  | some x => pyStr x
  | none => dflt

namespace Updatedapp

/-- `updatedapp.py` lines 183-189: the row and cell accumulation loops
(`row.append(str(binding.get(var, 'N/A')))`, `results.append(row)`). -/
def run_query_select (headers : List String) (result : List Row) :
    List (List String) :=
  result.foldl
    (fun results binding =>
      results ++
        [headers.foldl (fun r var => r ++ [getWithDefault binding var "N/A"]) []])
    []

end Updatedapp

/-- C8 counterexample: in both cited variants a projected variable unbound
in a row is rendered as `"None"` — the string form of the stored null — and
not as a "not applicable" sentinel: `testapp.py` indexes the row directly,
and `updatedapp.py`'s `'N/A'` default is not reached, because the row holds
an entry (the null) for every projected variable. -/
theorem C8_select_projection_counterexample :
    Testapp.run_query_select ["x"] [[("x", none)]] = [["None"]] ∧
    Updatedapp.run_query_select ["x"] [[("x", none)]] = [["None"]] ∧
    ("None" : String) ≠ "N/A" := by
  refine ⟨by decide, by decide, by decide⟩

theorem foldl_append_map {α β : Type} (f : α → β) :
    ∀ (l : List α) (acc : List β),
      l.foldl (fun r a => r ++ [f a]) acc = acc ++ l.map f := by
  intro l
  induction l with
  | nil => intro acc; simp
  | cons a l ih =>
      intro acc
      rw [List.foldl_cons, ih]
      simp

/-- C8 (amended): both cited SELECT projections render, for each result
row and each requested variable in the requested order, the textual form of
the bound term; a projected variable unbound in a row is rendered as
`"None"` — the string form of the stored null — in both variants, not as a
sentinel: `updatedapp.py`'s `'N/A'` default is returned only for a variable
absent from the row's labels (a `KeyError`), which the projected headers
never are. -/
theorem C8_select_projection_amended :
    (∀ (headers : List String) (result : List Row),
        Updatedapp.run_query_select headers result =
          result.map (fun row => headers.map
            (fun v => getWithDefault row v "N/A"))) ∧
    (∀ (headers : List String) (result : List Row),
        Testapp.run_query_select headers result =
          result.map (fun row => headers.map (fun v => pyStr (rowGet row v)))) ∧
    (∀ (row : Row) (v : String), List.lookup v row = some none →
        getWithDefault row v "N/A" = "None" ∧
        pyStr (rowGet row v) = "None") ∧
    (∀ (row : Row) (v : String), List.lookup v row = none →
        getWithDefault row v "N/A" = "N/A") := by
  refine ⟨?_, ?_, ?_, ?_⟩
  · intro headers result
    unfold Updatedapp.run_query_select
    rw [foldl_append_map
      (fun binding : Row =>
        headers.foldl (fun r var => r ++ [getWithDefault binding var "N/A"]) [])
      result ([] : List (List String))]
    rw [List.nil_append]
    have hrow : ∀ binding : Row,
        headers.foldl (fun r var => r ++ [getWithDefault binding var "N/A"]) [] =
          headers.map (fun v => getWithDefault binding v "N/A") := by
      intro binding
      rw [foldl_append_map (fun var => getWithDefault binding var "N/A")
        headers ([] : List String)]
      rw [List.nil_append]
    rw [funext hrow]
  · intro headers result
    rfl
  · intro row v hv
    unfold getWithDefault rowGet
    rw [hv]
    exact ⟨rfl, rfl⟩
  · intro row v hv
    unfold getWithDefault
    rw [hv]

/-- C8 amended witness: an unbound projected variable renders `"None"`
through both access paths; an absent variable falls back to the default. -/
theorem C8_select_projection_amended_witness :
    getWithDefault [("x", none)] "x" "N/A" = "None" ∧
    getWithDefault [] "x" "N/A" = "N/A" :=
  ⟨((C8_select_projection_amended).2.2.1 [("x", none)] "x" (by decide)).1,
   (C8_select_projection_amended).2.2.2 [] "x" (by decide)⟩

/-- C5 witness: dropping the concrete malformed line leaves the batch's
effect unchanged. -/
theorem C5_cwm_per_rule_isolation_witness :
    applyCwmLines [(exN "Book1", hasAuthor, exN "Alice")]
        ["no arrow here".toList, "?x hasAuthor ?y => ?y wrote ?x".toList] =
      applyCwmLines [(exN "Book1", hasAuthor, exN "Alice")]
        ["?x hasAuthor ?y => ?y wrote ?x".toList] :=
  (C5_cwm_per_rule_isolation).1 _ _ _ (by decide)
